import Mathlib

/-!
Verification of the typer-aliases extension layer.

The development shallowly embeds the repository's two modules:

* `src/typer_aliases/format.py` — pure help-text formatting
  (`truncate_aliases`, `format_command_with_aliases`,
  `format_commands_section`).  Python's `str.format` call
  `display_format.format(aliases=...)` is embedded by `pyFormatAliases`,
  which returns `none` where Python would raise (single braces,
  unknown or malformed replacement fields); `"\x7b\x7b"` and `"\x7d\x7d"`
  escapes produce literal braces as in Python.  Conversion and
  format-spec syntax inside a field is modelled as an error.

* `src/typer_aliases/core.py` — the shipped `AliasedTyper` class, whose
  only method is `__init__` (forward to `typer.Typer`, set
  `_command_aliases = {}`).

The alias-registry operations (`registerAlias`, `resolveAlias`,
`getCommand`) are exercised by the repository's tests but their
implementation is not part of the shipped sources; they are modelled
from the specification (see the doc comments marked
`Modelled from the spec:`).  Python `dict`s are embedded as
association lists with unique keys, `None`-returning lookups as
`Option`, raised `ValueError`s as an `Option RegError` component of the
result.
-/

namespace TyperAliases

/-- Embedding of `truncate_aliases` from `src/typer_aliases/format.py`:
if the list is empty return `""`; clamp a negative `max_num` to `0`;
if everything fits, join with the separator; otherwise join the first
`max_num` entries, add a trailing separator only when some entry is
visible, and append `"+{hidden} more"`. -/
def truncate_aliases (aliases : List String) (max_num : Int) (separator : String) : String :=
  if aliases = [] then ""
  else
    let m : Int := if max_num < 0 then 0 else max_num
    if (aliases.length : Int) ≤ m then String.intercalate separator aliases
    else
      let visible := aliases.take m.toNat
      let hidden : Int := (aliases.length : Int) - m
      String.intercalate separator visible ++ (if visible = [] then "" else separator)
        ++ "+" ++ toString hidden ++ " more"

/-- Reference definition of `truncateAliases` transcribed from the
specification's wording (clamp `maxCount` to at least `0`; trailing
separator present exactly when `maxCount > 0`), kept separate from the
source embedding so the two can be compared. -/
def truncateAliasesSpec (aliases : List String) (maxCount : Int) (separator : String) : String :=
  if aliases = [] then ""
  else
    let m : Int := max maxCount 0
    if (aliases.length : Int) ≤ m then String.intercalate separator aliases
    else
      String.intercalate separator (aliases.take m.toNat) ++ (if 0 < m then separator else "")
        ++ "+" ++ toString ((aliases.length : Int) - m) ++ " more"

/-- Embedding of Python's `fmt.format(aliases=value)` on the character
list of `fmt`: doubled braces are escapes for literal braces, the
field `\x7baliases\x7d` substitutes `value`, and every other brace use —
a single closing brace, an unterminated field, any field other than
exactly `aliases` — is an error (`none`), as `str.format` raises there. -/
def pyFmtGo (value : String) : List Char → Option String
  | [] => some ""
  | '{' :: '{' :: rest => (pyFmtGo value rest).map fun s => "\x7b" ++ s
  | '{' :: 'a' :: 'l' :: 'i' :: 'a' :: 's' :: 'e' :: 's' :: '}' :: rest =>
      (pyFmtGo value rest).map fun s => value ++ s
  | '{' :: _ => none
  | '}' :: '}' :: rest => (pyFmtGo value rest).map fun s => "\x7d" ++ s
  | '}' :: _ => none
  | c :: rest => (pyFmtGo value rest).map fun s => String.singleton c ++ s

/-- Embedding of the call `display_format.format(aliases=value)` used by
`format_command_with_aliases`; `none` models a raised exception. -/
def pyFormatAliases (fmt : String) (value : String) : Option String :=
  pyFmtGo value fmt.data

/-- Embedding of `format_command_with_aliases` from
`src/typer_aliases/format.py`: with no aliases the command name is
returned untouched (and `str.format` is never called); otherwise the
truncated alias string is substituted into `display_format` and glued
to the name with a single space.  `none` models a `str.format`
exception escaping the call. -/
def format_command_with_aliases (command_name : String) (aliases : List String)
    (display_format : String) (max_num : Int) (separator : String) : Option String :=
  if aliases = [] then some command_name
  else
    (pyFormatAliases display_format (truncate_aliases aliases max_num separator)).map
      fun d => command_name ++ " " ++ d

/-- Embedding of `format_commands_section` from
`src/typer_aliases/format.py`: the Python `for` loop over
`(cmd_name, help_text)` pairs, formatting the name through
`format_command_with_aliases` exactly when it is a key of
`command_aliases` and passing it through otherwise; an exception in
any iteration aborts the whole call (`none`). -/
def format_commands_section (commands : List (String × Option String))
    (command_aliases : List (String × List String))
    (display_format : String) (max_num : Int) (separator : String) :
    Option (List (String × Option String)) :=
  match commands with
  | [] => some []
  | (cmd_name, help_text) :: rest =>
    match
      (match List.lookup cmd_name command_aliases with
       | some aliases =>
           (format_command_with_aliases cmd_name aliases display_format max_num separator).map
             fun f => (f, help_text)
       | none => some (cmd_name, help_text))
    with
    | none => none
    | some entry =>
      match format_commands_section rest command_aliases display_format max_num separator with
      | none => none
      | some out => some (entry :: out)

/-- Detector for Python replacement fields: `true` when scanning the
string (skipping doubled-brace escapes) meets a single opening brace,
which starts a replacement field in `str.format`'s grammar. -/
def hasReplacementField : List Char → Bool
  | [] => false
  | '{' :: '{' :: rest => hasReplacementField rest
  | '}' :: '}' :: rest => hasReplacementField rest
  | '{' :: _ => true
  | _ :: rest => hasReplacementField rest

/-- Embedding of the shipped `typer.Typer` base constructor as an opaque
record of the positional and keyword arguments it was handed; the
framework itself is an external collaborator and is not modelled
further. -/
structure Typer where
  args : List String
  kwargs : List (String × String)
deriving DecidableEq

/-- Constructor call `typer.Typer(*args, **kwargs)`. -/
def Typer.init (args : List String) (kwargs : List (String × String)) : Typer :=
  ⟨args, kwargs⟩

/-- Embedding of the shipped `AliasedTyper` class of
`src/typer_aliases/core.py`: the inherited framework state plus the
`_command_aliases` mapping. -/
structure AliasedTyper where
  toTyper : Typer
  command_aliases : List (String × List String)
deriving DecidableEq

/-- Embedding of `AliasedTyper.__init__`: forward every argument to the
`typer.Typer` constructor and set `_command_aliases` to the empty
mapping. -/
def AliasedTyper.init (args : List String) (kwargs : List (String × String)) : AliasedTyper :=
  { toTyper := Typer.init args kwargs, command_aliases := [] }

/-- States of `AliasedTyper` reachable through the operations the
shipped core defines.  `__init__` is the only method
`src/typer_aliases/core.py` declares, and no other shipped code writes
to `_command_aliases`, so construction is the sole transition. -/
inductive AliasedTyper.Reachable : AliasedTyper → Prop where
  | init (args : List String) (kwargs : List (String × String)) :
      AliasedTyper.Reachable (AliasedTyper.init args kwargs)

/-- Modelled from the spec: the registration-time error taxonomy of the
alias registry (`InvalidAliasFormat` with the violated rule named,
`SelfAliasConflict`, `AliasAlreadyRegistered`); the registry
implementation itself is not among the shipped sources, only its tests
are. -/
inductive RegError where
  | invalidAliasFormat (rule : String)
  | selfAliasConflict
  | aliasAlreadyRegistered
deriving DecidableEq

/-- Modelled from the spec: alias-registry state — `commandToAliases`
(command name to ordered alias list, original casing),
`aliasToCommand` (normalized alias to command name), and the
construction-time `caseSensitive` flag.  Python dicts become
association lists. -/
structure AliasRegistry where
  commandToAliases : List (String × List String)
  aliasToCommand : List (String × String)
  caseSensitive : Bool
deriving DecidableEq

/-- Modelled from the spec: normalization applies a stable lowercase
transform when `caseSensitive` is false and is the identity otherwise. -/
def normalise (caseSensitive : Bool) (name : String) : String :=
  if caseSensitive then name else name.toLower

/-- Modelled from the spec: a character admissible in an alias —
alphanumeric, dash, underscore, or a printable non-whitespace character
outside ASCII (Unicode letters permitted). -/
def isAliasChar (c : Char) : Bool :=
  c.isAlphanum || c = '-' || c = '_' || (128 ≤ c.toNat && !c.isWhitespace)

/-- Modelled from the spec: the conjunction of the three format rules
`registerAlias` validates — non-empty, no whitespace, admissible
characters only. -/
def validAliasFormat (al : String) : Bool :=
  (al != "") && !(al.data.any Char.isWhitespace) && al.data.all isAliasChar

/-- Append a value to the list stored under `key` in an association
list, creating the entry if absent (the `commandToAliases` update of
`registerAlias`). -/
def insertAppend (l : List (String × List String)) (key value : String) :
    List (String × List String) :=
  match l with
  | [] => [(key, [value])]
  | (k, v) :: rest =>
    if k = key then (k, v ++ [value]) :: rest else (k, v) :: insertAppend rest key value

/-- Modelled from the spec: `registerAlias(command, alias)` — validate
the alias format (empty, whitespace, charset, in that order), then fail
on a self-alias, then on an already-registered normalized alias, and
only then update both maps: append the original-cased alias to
`commandToAliases[command]` and bind the normalized alias in
`aliasToCommand`.  The state component of the result is unchanged on
every failure (no partial mutation); the `Option RegError` component
models the raised error. -/
def registerAlias (r : AliasRegistry) (command al : String) :
    AliasRegistry × Option RegError :=
  if al = "" then (r, some (RegError.invalidAliasFormat "empty"))
  else if al.data.any Char.isWhitespace then
    (r, some (RegError.invalidAliasFormat "whitespace"))
  else if ¬ al.data.all isAliasChar then
    (r, some (RegError.invalidAliasFormat "charset"))
  else if normalise r.caseSensitive al = normalise r.caseSensitive command then
    (r, some RegError.selfAliasConflict)
  else if (List.lookup (normalise r.caseSensitive al) r.aliasToCommand).isSome then
    (r, some RegError.aliasAlreadyRegistered)
  else
    ({ r with
        commandToAliases := insertAppend r.commandToAliases command al,
        aliasToCommand := r.aliasToCommand ++ [(normalise r.caseSensitive al, command)] },
      none)

/-- Modelled from the spec: `resolveAlias(token)` normalizes the token
and looks it up in `aliasToCommand`; absent (`none`) is a normal
result, not an error. -/
def resolveAlias (r : AliasRegistry) (token : String) : Option String :=
  List.lookup (normalise r.caseSensitive token) r.aliasToCommand

/-- Modelled from the spec: registry states reachable from an empty
registry by successful `registerAlias` calls (batch registration and
`addAlias` both delegate to `registerAlias`, so their successes add
nothing beyond these transitions). -/
inductive AliasRegistry.Reachable : AliasRegistry → Prop where
  | empty (cs : Bool) : AliasRegistry.Reachable ⟨[], [], cs⟩
  | step (r r' : AliasRegistry) (command al : String) :
      AliasRegistry.Reachable r → registerAlias r command al = (r', none) →
      AliasRegistry.Reachable r'

/-- The ordered alias list registered for a command (empty when the
command has no entry). -/
def aliasesOf (r : AliasRegistry) (command : String) : List String :=
  (List.lookup command r.commandToAliases).getD []

/-- Modelled from the spec: the dispatch override `getCommand(ctx, token)`
— ask the framework's native resolver first and return its hit
unchanged; only on a miss consult `resolveAlias` and re-query the native
resolver with the canonical name; otherwise report absent without
raising. -/
def getCommand {α : Type} (native : String → Option α) (r : AliasRegistry)
    (token : String) : Option α :=
  match native token with
  | some cmd => some cmd
  | none =>
    match resolveAlias r token with
    | some canonical => native canonical
    | none => none

/-- Concrete empty registry (case-sensitive), used by the concrete
instances below. -/
def reg0 : AliasRegistry := ⟨[], [], true⟩

/-- Registry holding the single pair `("list", "ls")`. -/
def regList : AliasRegistry := (registerAlias reg0 "list" "ls").1

/-- Registry where command `status` has alias `list`. -/
def regS1 : AliasRegistry := (registerAlias reg0 "status" "list").1

/-- Registry where command `status` has alias `list` and command `list`
has alias `status` — both registrations succeed, producing two primary
command names that are each also registered aliases of the other. -/
def regS2 : AliasRegistry := (registerAlias regS1 "list" "status").1

/-- Concrete native resolver standing in for the framework: it knows
the single primary command name `list`. -/
def demoNative : String → Option Nat :=
  fun token => if token = "list" then some 1 else none

/-- Relation between one input entry and one output entry of
`format_commands_section`: the help text is passed through unmodified,
and the name goes through `format_command_with_aliases` exactly when it
is a key of the alias map and is unchanged otherwise. -/
def sectionEntryMatches (command_aliases : List (String × List String))
    (display_format : String) (max_num : Int) (separator : String)
    (c o : String × Option String) : Prop :=
  o.2 = c.2 ∧
    (match List.lookup c.1 command_aliases with
     | some aliases =>
         format_command_with_aliases c.1 aliases display_format max_num separator = some o.1
     | none => o.1 = c.1)

/-- Separator behaviour of `truncate_aliases` agrees between the code
(`separator if visible else ''`) and the spec (`separator` only when
`maxCount > 0`): the visible slice of a non-empty list is empty exactly
when the clamped count is zero. -/
theorem truncate_take_eq_nil_iff (aliases : List String) (m : Int) (h : aliases ≠ []) :
    aliases.take (max m 0).toNat = [] ↔ ¬ 0 < max m 0 := by
  rw [List.take_eq_nil_iff]
  constructor
  · rintro (h0 | h0)
    · omega
    · exact absurd h0 h
  · intro h0
    left
    omega

/-- Claim C3: for every list of aliases, every integer maximum
(including negative values) and every separator, `truncate_aliases`
equals the reference definition transcribed from the spec, and in
particular `truncate_aliases ["a", "b"] 0` is exactly `"+2 more"` with
no leading separator. -/
theorem truncate_aliases_matches_spec :
    (∀ (aliases : List String) (maxCount : Int) (separator : String),
      truncate_aliases aliases maxCount separator =
        truncateAliasesSpec aliases maxCount separator) ∧
    truncate_aliases ["a", "b"] 0 ", " = "+2 more" := by
  refine ⟨fun aliases m sep => ?_, by decide⟩
  unfold truncate_aliases truncateAliasesSpec
  by_cases h : aliases = []
  · simp [h]
  · have hm : (if m < 0 then (0 : Int) else m) = max m 0 := by omega
    simp only [if_neg h, hm]
    by_cases hle : (aliases.length : Int) ≤ max m 0
    · simp [hle]
    · simp only [if_neg hle]
      by_cases hpos : 0 < max m 0
      · rw [if_neg (fun hnil => (truncate_take_eq_nil_iff aliases m h).mp hnil hpos),
          if_pos hpos]
      · rw [if_pos ((truncate_take_eq_nil_iff aliases m h).mpr hpos), if_neg hpos]

/-- Claim C10: `truncate_aliases` joins elements verbatim without
validating or filtering them — any non-empty list whose length is
within the limit is joined exactly with the separator, and in
particular empty-string elements yield consecutive separators, as in
`truncate_aliases ["a", "", "b"] 3 = "a, , b"`. -/
theorem truncate_aliases_no_filtering :
    (∀ (aliases : List String) (max_num : Int) (separator : String),
      aliases ≠ [] → (aliases.length : Int) ≤ max_num →
      truncate_aliases aliases max_num separator = String.intercalate separator aliases) ∧
    truncate_aliases ["a", "", "b"] 3 ", " = "a, , b" := by
  refine ⟨fun aliases m sep h hle => ?_, by decide⟩
  have hpos : (0 : Int) < aliases.length := by
    cases aliases with
    | nil => exact absurd rfl h
    | cons x xs => simp
  have hm : ¬ m < 0 := by omega
  unfold truncate_aliases
  simp only [if_neg h, if_neg hm, if_pos hle]

/-- Claim C10 witness: the general part of
`truncate_aliases_no_filtering` applied at a concrete in-limit list. -/
theorem truncate_aliases_no_filtering_witness :
    truncate_aliases ["x", "y"] 5 ", " = String.intercalate ", " ["x", "y"] :=
  truncate_aliases_no_filtering.1 ["x", "y"] 5 ", " (by decide) (by decide)

/-- Claim C7: the three display-formatting functions are pure and
deterministic — they are total functions of their arguments alone, so
two calls on equal arguments return equal results; in this embedding
every observable input is an explicit argument and arguments are
immutable values, so no call mutates its arguments or other state. -/
theorem format_functions_pure :
    ∀ (aliases : List String) (max_num : Int) (separator name fmt : String)
      (commands : List (String × Option String)) (cm : List (String × List String)),
      truncate_aliases aliases max_num separator = truncate_aliases aliases max_num separator ∧
      format_command_with_aliases name aliases fmt max_num separator =
        format_command_with_aliases name aliases fmt max_num separator ∧
      format_commands_section commands cm fmt max_num separator =
        format_commands_section commands cm fmt max_num separator :=
  fun _ _ _ _ _ _ _ => ⟨rfl, rfl, rfl⟩

/-- Claim C5: `format_command_with_aliases` returns the bare name on an
empty alias list; on a non-empty list it returns the name, a single
space, and the display format with its `aliases` field substituted by
the truncated alias string; with the default options,
`format_command_with_aliases "list" ["ls", "l"]` is `"list (ls, l)"`. -/
theorem format_command_with_aliases_spec :
    (∀ (name fmt : String) (m : Int) (sep : String),
      format_command_with_aliases name [] fmt m sep = some name) ∧
    (∀ (name : String) (aliases : List String) (fmt : String) (m : Int) (sep : String),
      aliases ≠ [] →
      format_command_with_aliases name aliases fmt m sep =
        (pyFormatAliases fmt (truncate_aliases aliases m sep)).map
          fun d => name ++ " " ++ d) ∧
    format_command_with_aliases "list" ["ls", "l"] "({aliases})" 3 ", " = some "list (ls, l)" := by
  refine ⟨fun name fmt m sep => ?_, fun name aliases fmt m sep h => ?_, by decide⟩
  · simp [format_command_with_aliases]
  · simp [format_command_with_aliases, if_neg h]

/-- Claim C5 witness: the non-empty case of
`format_command_with_aliases_spec` applied at a concrete input. -/
theorem format_command_with_aliases_spec_witness :
    format_command_with_aliases "list" ["ls"] "[{aliases}]" 3 ", " =
      (pyFormatAliases "[{aliases}]" (truncate_aliases ["ls"] 3 ", ")).map
        fun d => "list" ++ " " ++ d :=
  format_command_with_aliases_spec.2.1 "list" ["ls"] "[{aliases}]" 3 ", " (by decide)

set_option maxHeartbeats 3000000 in
/-- Format strings without brace characters pass through
`pyFmtGo` unchanged: no escape and no replacement field is ever
entered, so every character is copied verbatim. -/
theorem pyFmtGo_of_brace_free (value : String) (cs : List Char)
    (h : ∀ c ∈ cs, c ≠ '{' ∧ c ≠ '}') : pyFmtGo value cs = some (String.mk cs) := by
  induction cs with
  | nil => rfl
  | cons c rest ih =>
    obtain ⟨h1, h2⟩ := h c (List.mem_cons_self c rest)
    rw [show pyFmtGo value (c :: rest) =
        (pyFmtGo value rest).map (fun s => String.singleton c ++ s) by
      simp [pyFmtGo, h1, h2]]
    rw [ih fun x hx => h x (List.mem_cons_of_mem c hx)]
    rfl

/-- Claim C9 (amended): for every name, non-empty alias list and
display format containing no brace character, the result is the name,
a single space, and the display format verbatim — the aliases are
silently omitted and no error is raised.  (The claim's wording "no
replacement fields" is amended to "no brace characters": doubled-brace
escapes contain no replacement field either, yet are rewritten to
single braces rather than passed through verbatim, see the
counterexample.) -/
theorem format_braceless_display_verbatim :
    ∀ (name : String) (aliases : List String) (fmt : String) (m : Int) (sep : String),
      aliases ≠ [] → (∀ c ∈ fmt.data, c ≠ '{' ∧ c ≠ '}') →
      format_command_with_aliases name aliases fmt m sep = some (name ++ " " ++ fmt) := by
  intro name aliases fmt m sep h hb
  obtain ⟨l⟩ := fmt
  rw [format_command_with_aliases, if_neg h, pyFormatAliases, pyFmtGo_of_brace_free _ _ hb]
  rfl

/-- Claim C9 witness: `format_braceless_display_verbatim` applied to
the display format `"()"` from the claim. -/
theorem format_braceless_display_verbatim_witness :
    format_command_with_aliases "list" ["ls", "l"] "()" 3 ", " = some ("list" ++ " " ++ "()") :=
  format_braceless_display_verbatim "list" ["ls", "l"] "()" 3 ", " (by decide) (by decide)

/-- Claim C9 counterexample: the display format `"\x7b\x7b\x7d\x7d"`
contains no replacement field, yet `format_command_with_aliases` does
not return it verbatim — Python's doubled-brace escapes are rewritten
to single braces, so the output block is `"\x7b\x7d"`. -/
theorem format_no_field_counterexample :
    hasReplacementField "\x7b\x7b\x7d\x7d".data = false ∧
    format_command_with_aliases "n" ["x"] "\x7b\x7b\x7d\x7d" 3 ", " = some "n \x7b\x7d" ∧
    ("n \x7b\x7d" : String) ≠ "n \x7b\x7b\x7d\x7d" := by decide

/-- Claim C6: whenever `format_commands_section` returns a value, it
has exactly one output entry per input entry in the same order; each
entry's help text is passed through unmodified (including when
absent), and its name is `format_command_with_aliases` of the input
name exactly when that name is a key of the alias map and is the input
name unchanged otherwise. -/
theorem format_commands_section_spec :
    ∀ (commands : List (String × Option String)) (cm : List (String × List String))
      (fmt : String) (m : Int) (sep : String) (out : List (String × Option String)),
      format_commands_section commands cm fmt m sep = some out →
      out.length = commands.length ∧
      List.Forall₂ (sectionEntryMatches cm fmt m sep) commands out := by
  intro commands cm fmt m sep
  induction commands with
  | nil =>
    intro out h
    rw [format_commands_section] at h
    cases h
    exact ⟨rfl, List.Forall₂.nil⟩
  | cons hd tl ih =>
    intro out h
    obtain ⟨n, ht⟩ := hd
    rw [format_commands_section] at h
    cases he : (match List.lookup n cm with
      | some aliases =>
          (format_command_with_aliases n aliases fmt m sep).map fun f => (f, ht)
      | none => some (n, ht)) with
    | none => rw [he] at h; cases h
    | some entry =>
      rw [he] at h
      cases hr : format_commands_section tl cm fmt m sep with
      | none => rw [hr] at h; cases h
      | some out' =>
        rw [hr] at h
        cases h
        obtain ⟨hlen, hall⟩ := ih out' hr
        refine ⟨by simp [hlen], List.Forall₂.cons ?_ hall⟩
        rw [sectionEntryMatches]
        cases hlk : List.lookup n cm with
        | some aliases =>
          rw [hlk] at he
          have he2 : Option.map (fun f => ((f, ht) : String × Option String))
              (format_command_with_aliases n aliases fmt m sep) = some entry := he
          cases hfc : format_command_with_aliases n aliases fmt m sep with
          | none => rw [hfc] at he2; cases he2
          | some f =>
            rw [hfc] at he2
            cases he2
            exact ⟨rfl, hfc⟩
        | none =>
          rw [hlk] at he
          have he2 : some ((n, ht) : String × Option String) = some entry := he
          cases he2
          exact ⟨rfl, rfl⟩

/-- Claim C6 witness: `format_commands_section_spec` applied to a
two-entry listing in which one command has aliases and the other — with
absent help text — does not. -/
theorem format_commands_section_spec_witness :
    List.Forall₂ (sectionEntryMatches [("list", ["ls"])] "({aliases})" 3 ", ")
      [("list", some "h"), ("go", none)] [("list (ls)", some "h"), ("go", none)] :=
  (format_commands_section_spec [("list", some "h"), ("go", none)] [("list", ["ls"])]
    "({aliases})" 3 ", " [("list (ls)", some "h"), ("go", none)] (by decide)).2

/-- Association-list lookup finds the binding at the head. -/
theorem lookup_cons_key {β : Type} (k : String) (v : β) (rest : List (String × β)) :
    List.lookup k ((k, v) :: rest) = some v := by
  simp [List.lookup]

/-- Association-list lookup skips a head entry with a different key. -/
theorem lookup_cons_skip {β : Type} (k pk : String) (v : β) (rest : List (String × β))
    (h : k ≠ pk) : List.lookup k ((pk, v) :: rest) = List.lookup k rest := by
  rw [List.lookup, beq_eq_false_iff_ne.mpr h]

/-- Looking up the key just extended by `insertAppend` returns the old
list (empty when the key was absent) with the new value appended. -/
theorem lookup_insertAppend_self (l : List (String × List String)) (k v : String) :
    List.lookup k (insertAppend l k v) = some ((List.lookup k l).getD [] ++ [v]) := by
  induction l with
  | nil =>
    rw [insertAppend, lookup_cons_key]
    rfl
  | cons p rest ih =>
    obtain ⟨pk, pv⟩ := p
    by_cases h : pk = k
    · subst h
      simp only [insertAppend, if_true, eq_self_iff_true]
      rw [lookup_cons_key, lookup_cons_key]
      rfl
    · simp only [insertAppend, if_neg h]
      rw [lookup_cons_skip _ _ _ _ (Ne.symm h), lookup_cons_skip _ _ _ _ (Ne.symm h), ih]

/-- `insertAppend` leaves every other key's binding unchanged. -/
theorem lookup_insertAppend_ne (l : List (String × List String)) (k k' v : String)
    (h : k' ≠ k) : List.lookup k' (insertAppend l k v) = List.lookup k' l := by
  induction l with
  | nil =>
    rw [insertAppend, lookup_cons_skip _ _ _ _ h]
  | cons p rest ih =>
    obtain ⟨pk, pv⟩ := p
    by_cases hp : pk = k
    · subst hp
      simp only [insertAppend, if_true, eq_self_iff_true]
      rw [lookup_cons_skip _ _ _ _ h, lookup_cons_skip _ _ _ _ h]
    · simp only [insertAppend, if_neg hp]
      by_cases hk : k' = pk
      · subst hk
        rw [lookup_cons_key, lookup_cons_key]
      · rw [lookup_cons_skip _ _ _ _ hk, lookup_cons_skip _ _ _ _ hk, ih]

/-- A binding present in the front list survives appending. -/
theorem lookup_append_of_some {β : Type} (k : String) (v : β)
    (l₁ l₂ : List (String × β)) (h : List.lookup k l₁ = some v) :
    List.lookup k (l₁ ++ l₂) = some v := by
  induction l₁ with
  | nil => simp [List.lookup] at h
  | cons p rest ih =>
    obtain ⟨pk, pv⟩ := p
    by_cases hp : k = pk
    · subst hp
      rw [lookup_cons_key] at h
      rw [List.cons_append, lookup_cons_key]
      exact h
    · rw [lookup_cons_skip _ _ _ _ hp] at h
      rw [List.cons_append, lookup_cons_skip _ _ _ _ hp]
      exact ih h

/-- A key absent from the front list is looked up in the back list. -/
theorem lookup_append_of_none {β : Type} (k : String) (l₁ l₂ : List (String × β))
    (h : List.lookup k l₁ = none) : List.lookup k (l₁ ++ l₂) = List.lookup k l₂ := by
  induction l₁ with
  | nil => simp
  | cons p rest ih =>
    obtain ⟨pk, pv⟩ := p
    by_cases hp : k = pk
    · subst hp
      rw [lookup_cons_key] at h
      cases h
    · rw [lookup_cons_skip _ _ _ _ hp] at h
      rw [List.cons_append, lookup_cons_skip _ _ _ _ hp]
      exact ih h

/-- Soundness of the inverse index on reachable registries: every
registered `(command, alias)` pair is present in `aliasToCommand`
under the alias's normalized form, bound to that command (the mutual
consistency invariant of the spec's data model). -/
theorem registry_pairs_sound (r : AliasRegistry) (h : AliasRegistry.Reachable r) :
    ∀ c a, a ∈ aliasesOf r c →
      List.lookup (normalise r.caseSensitive a) r.aliasToCommand = some c := by
  induction h with
  | empty cs =>
    intro c a ha
    simp [aliasesOf, List.lookup] at ha
  | step r r' cmd al hr hreg ih =>
    intro c a ha
    unfold registerAlias at hreg
    split at hreg
    · simp at hreg
    · split at hreg
      · simp at hreg
      · split at hreg
        · simp at hreg
        · split at hreg
          · simp at hreg
          · split at hreg
            · simp at hreg
            · rename_i hself hdup
              have hdup2 : List.lookup (normalise r.caseSensitive al) r.aliasToCommand
                  = none := Option.not_isSome_iff_eq_none.mp hdup
              simp only [Prod.mk.injEq, and_true] at hreg
              subst hreg
              simp only [aliasesOf] at ha
              by_cases hc : c = cmd
              · subst hc
                rw [lookup_insertAppend_self] at ha
                simp only [Option.getD_some] at ha
                rcases List.mem_append.mp ha with hold | hnew
                · exact lookup_append_of_some _ _ _ _
                    (ih c a (by simpa [aliasesOf] using hold))
                · have hal : a = al := List.mem_singleton.mp hnew
                  subst hal
                  show List.lookup (normalise r.caseSensitive a)
                    (r.aliasToCommand ++ [(normalise r.caseSensitive a, c)]) = some c
                  rw [lookup_append_of_none _ _ _ hdup2, lookup_cons_key]
              · rw [lookup_insertAppend_ne _ _ _ _ hc] at ha
                exact lookup_append_of_some _ _ _ _
                  (ih c a (by simpa [aliasesOf] using ha))

/-- Completeness of the inverse index on reachable registries: every
binding in `aliasToCommand` arises from a registered pair — the bound
command has a registered alias whose normalized form is the key. -/
theorem registry_index_complete (r : AliasRegistry) (h : AliasRegistry.Reachable r) :
    ∀ k c, List.lookup k r.aliasToCommand = some c →
      ∃ a, a ∈ aliasesOf r c ∧ normalise r.caseSensitive a = k := by
  induction h with
  | empty cs =>
    intro k c hk
    simp [List.lookup] at hk
  | step r r' cmd al hr hreg ih =>
    intro k c hk
    unfold registerAlias at hreg
    split at hreg
    · simp at hreg
    · split at hreg
      · simp at hreg
      · split at hreg
        · simp at hreg
        · split at hreg
          · simp at hreg
          · split at hreg
            · simp at hreg
            · rename_i hself hdup
              have hdup2 : List.lookup (normalise r.caseSensitive al) r.aliasToCommand
                  = none := Option.not_isSome_iff_eq_none.mp hdup
              simp only [Prod.mk.injEq, and_true] at hreg
              subst hreg
              by_cases hkna : k = normalise r.caseSensitive al
              · subst hkna
                rw [lookup_append_of_none _ _ _ hdup2, lookup_cons_key] at hk
                cases hk
                refine ⟨al, ?_, rfl⟩
                simp only [aliasesOf]
                rw [lookup_insertAppend_self]
                simp
              · have hold : List.lookup k r.aliasToCommand = some c := by
                  cases hlk : List.lookup k r.aliasToCommand with
                  | some v =>
                    rw [lookup_append_of_some _ _ _ _ hlk] at hk
                    cases hk
                    rfl
                  | none =>
                    rw [lookup_append_of_none _ _ _ hlk,
                      lookup_cons_skip _ _ _ _ hkna] at hk
                    cases hk
                obtain ⟨a, hmem, hna⟩ := ih k c hold
                refine ⟨a, ?_, hna⟩
                simp only [aliasesOf]
                by_cases hc : c = cmd
                · subst hc
                  rw [lookup_insertAppend_self]
                  simp only [Option.getD_some]
                  exact List.mem_append_left _ (by simpa [aliasesOf] using hmem)
                · rw [lookup_insertAppend_ne _ _ _ _ hc]
                  simpa [aliasesOf] using hmem

/-- Claim C1 (amended): on every reachable registry, `resolveAlias`
maps each registered alias to its command; and a token — in particular
a primary command name — resolves to absent whenever no command
registered an alias with the token's normalized form.  The unrestricted
claim is false: registration only rejects an alias equal to its own
command's name, so an alias may equal a different command's primary
name, and that primary name then resolves to the aliasing command (see
the counterexample). -/
theorem resolveAlias_one_directional (r : AliasRegistry) (h : AliasRegistry.Reachable r) :
    (∀ c a, a ∈ aliasesOf r c → resolveAlias r a = some c) ∧
    (∀ token,
      (¬ ∃ c a, a ∈ aliasesOf r c ∧
        normalise r.caseSensitive a = normalise r.caseSensitive token) →
      resolveAlias r token = none) := by
  constructor
  · intro c a ha
    exact registry_pairs_sound r h c a ha
  · intro token hno
    cases hr : resolveAlias r token with
    | none => rfl
    | some c =>
      obtain ⟨a, hmem, hna⟩ :=
        registry_index_complete r h (normalise r.caseSensitive token) c hr
      exact absurd ⟨c, a, hmem, hna⟩ hno

/-- Claim C1 witness: `resolveAlias_one_directional` applied to the
concrete registry holding the pair `("list", "ls")`. -/
theorem resolveAlias_one_directional_witness :
    resolveAlias regList "ls" = some "list" :=
  (resolveAlias_one_directional regList
    (AliasRegistry.Reachable.step reg0 regList "list" "ls"
      (AliasRegistry.Reachable.empty true) (by decide))).1 "list" "ls" (by decide)

/-- Claim C1 counterexample: two successful registrations produce a
registry in which `list` is a primary command name with a registered
pair, yet `resolveAlias` applied to the primary name `list` returns
`some "status"`, not absent — refuting the claim that resolution on a
primary command name is always absent. -/
theorem resolveAlias_primary_counterexample :
    (registerAlias reg0 "status" "list").2 = none ∧
    (registerAlias regS1 "list" "status").2 = none ∧
    "status" ∈ aliasesOf regS2 "list" ∧
    (List.lookup "list" regS2.commandToAliases).isSome = true ∧
    resolveAlias regS2 "list" = some "status" := by decide

/-- Claim C2: `getCommand` returns the native resolver's hit unchanged
when there is one; only on a native miss does it consult
`resolveAlias` and re-query the native resolver with the canonical
name; and when neither path resolves it returns absent rather than
raising. -/
theorem getCommand_spec :
    ∀ {α : Type} (native : String → Option α) (r : AliasRegistry) (token : String),
      (∀ cmd, native token = some cmd → getCommand native r token = some cmd) ∧
      (native token = none →
        ∀ canonical, resolveAlias r token = some canonical →
          getCommand native r token = native canonical) ∧
      (native token = none → resolveAlias r token = none →
        getCommand native r token = none) := by
  intro α native r token
  refine ⟨fun cmd h => ?_, fun h canonical hc => ?_, fun h hc => ?_⟩
  · simp only [getCommand]
    rw [h]
  · simp only [getCommand]
    rw [h, hc]
  · simp only [getCommand]
    rw [h, hc]

/-- Claim C2 witness: `getCommand_spec` at a concrete resolver and
registry — the token `ls` misses natively, resolves to `list`, and
the native resolver is re-queried with that canonical name. -/
theorem getCommand_spec_witness :
    getCommand demoNative regList "ls" = demoNative "list" :=
  (getCommand_spec demoNative regList "ls").2.1 (by decide) "list" (by decide)

/-- Claim C4 (amended): re-registering an already-registered
(well-formed) alias always fails and leaves the registry exactly as it
was, with no partial mutation; the error is `AliasAlreadyRegistered`
whenever the alias does not normalize to the new command's own name.
The unamended claim is false in one corner: when the re-registered
alias equals the new command's name, the self-alias check fires first
and the error is `SelfAliasConflict` (see the counterexample). -/
theorem registerAlias_duplicate_fails (r : AliasRegistry) (cmd al c0 : String)
    (hv : validAliasFormat al = true)
    (hdup : List.lookup (normalise r.caseSensitive al) r.aliasToCommand = some c0) :
    (registerAlias r cmd al).1 = r ∧
    (registerAlias r cmd al).2.isSome = true ∧
    (normalise r.caseSensitive al ≠ normalise r.caseSensitive cmd →
      (registerAlias r cmd al).2 = some RegError.aliasAlreadyRegistered) := by
  rw [validAliasFormat, Bool.and_eq_true, Bool.and_eq_true] at hv
  obtain ⟨⟨h1, h2⟩, h3⟩ := hv
  rw [bne_iff_ne] at h1
  rw [Bool.not_eq_true'] at h2
  unfold registerAlias
  rw [if_neg h1, if_neg (by rw [h2]; exact Bool.false_ne_true),
    if_neg (not_not_intro h3)]
  by_cases hself : normalise r.caseSensitive al = normalise r.caseSensitive cmd
  · rw [if_pos hself]
    exact ⟨rfl, rfl, fun hne => absurd hself hne⟩
  · rw [if_neg hself, if_pos (by rw [hdup]; rfl)]
    exact ⟨rfl, rfl, fun _ => rfl⟩

/-- Claim C4 witness: `registerAlias_duplicate_fails` at the concrete
registry holding `("list", "ls")`, re-registering `ls` for a different
command. -/
theorem registerAlias_duplicate_fails_witness :
    (registerAlias regList "delete" "ls").2 = some RegError.aliasAlreadyRegistered :=
  (registerAlias_duplicate_fails regList "delete" "ls" "list" (by decide)
    (by decide)).2.2 (by decide)

/-- Claim C4 counterexample: after `ls` is registered for `list`,
registering the already-registered alias `ls` for the command named
`ls` fails — the state is unchanged — but with `SelfAliasConflict`
rather than `AliasAlreadyRegistered`, because the self-alias check
precedes the duplicate check in the spec's order. -/
theorem registerAlias_duplicate_counterexample :
    (registerAlias reg0 "list" "ls").2 = none ∧
    List.lookup "ls" regList.aliasToCommand = some "list" ∧
    registerAlias regList "ls" "ls" = (regList, some RegError.selfAliasConflict) ∧
    RegError.selfAliasConflict ≠ RegError.aliasAlreadyRegistered := by decide

/-- Claim C8: every reachable `AliasedTyper` instance — the shipped
core defines construction and nothing else — has an empty
`_command_aliases` map and a base state produced by forwarding all
constructor arguments to the framework's constructor. -/
theorem aliasedTyper_command_aliases_empty :
    ∀ app, AliasedTyper.Reachable app →
      app.command_aliases = [] ∧
      ∃ args kwargs, app.toTyper = Typer.init args kwargs := by
  intro app h
  cases h with
  | init args kwargs => exact ⟨rfl, args, kwargs, rfl⟩

/-- Claim C8 witness: `aliasedTyper_command_aliases_empty` applied to a
freshly constructed instance. -/
theorem aliasedTyper_command_aliases_empty_witness :
    (AliasedTyper.init ["prog"] []).command_aliases = [] :=
  (aliasedTyper_command_aliases_empty (AliasedTyper.init ["prog"] [])
    (AliasedTyper.Reachable.init ["prog"] [])).1

end TyperAliases
